import Mathlib

/-!
Shallow embedding of the lseq repository (src/Sequence.ts, src/Op.ts).

The repository's `idents` module (Ident, Segment, IdentGenerator,
LSEQIdentGenerator) and `storage` module (Storage, ArrayStorage) are not
present under src/; they are modelled from the specification (spec.md §3,
§4.1, §4.2, §4.3) and each such definition is marked `Modelled from the
spec`.  Everything else is translated directly from the TypeScript source.

JavaScript runtime values that flow through Op fields are modelled by the
sum type `JsVal`, because the source calls the four-parameter `InsertOp`
constructor with two arguments and the three-parameter `RemoveOp`
constructor with one argument, so op fields can hold identifiers, strings,
numbers, `undefined` or `null` at run time.  A thrown JavaScript error is
modelled by `Except.error`.
-/

namespace LSeq

/-- Modelled from the spec (§3): the idents module is absent from src/.
A segment pairs a position with a disambiguator, the disambiguator being
the replica id combined with a local logical counter. -/
structure Segment where
  pos : Nat
  replica : String
  counter : Nat
deriving DecidableEq

/-- Modelled from the spec (§3, §4.1): segments are compared by position,
then by disambiguator (replica id, then counter). -/
def Segment.cmp (a b : Segment) : Ordering :=
  if a.pos < b.pos then .lt
  else if b.pos < a.pos then .gt
  else if a.replica < b.replica then .lt
  else if b.replica < a.replica then .gt
  else if a.counter < b.counter then .lt
  else if b.counter < a.counter then .gt
  else .eq

/-- Modelled from the spec (§3): an identifier is a sequence of segments.
(The spec requires it to be non-empty; emptiness is irrelevant to the
comparison and storage lemmas below.) -/
structure Ident where
  segments : List Segment
deriving DecidableEq

/-- Modelled from the spec (§3): lexicographic comparison of segment lists;
a strict prefix sorts first. -/
def Ident.cmpSegs : List Segment → List Segment → Ordering
  | [], [] => .eq
  | [], _ :: _ => .lt
  | _ :: _, [] => .gt
  | a :: as, b :: bs =>
    match Segment.cmp a b with
    | .lt => .lt
    | .gt => .gt
    | .eq => Ident.cmpSegs as bs

/-- Modelled from the spec (§4.1): `compare(a, b)`. -/
def Ident.cmp (a b : Ident) : Ordering :=
  Ident.cmpSegs a.segments b.segments

/-- Modelled from the spec (§4.1): `depth()` is the number of segments. -/
def Ident.getDepth (i : Ident) : Nat :=
  i.segments.length

/-- Modelled from the spec (§6): each segment is encoded as
`<position>,<replica>,<counter>`; the exact delimiters are an
implementation decision per the spec. -/
def Segment.encode (s : Segment) : String :=
  toString s.pos ++ "," ++ s.replica ++ "," ++ toString s.counter

/-- Modelled from the spec (§4.1): `Ident.toString()` joins the encoded
segments with a fixed separator. -/
def Ident.str (i : Ident) : String :=
  String.intercalate "." (i.segments.map Segment.encode)

/-- JavaScript `String.prototype.split` with a one-character separator,
on character lists (structural model of the splitting the source uses). -/
def splitChars (c : Char) : List Char → List (List Char)
  | [] => [[]]
  | x :: xs =>
    if x = c then [] :: splitChars c xs
    else
      match splitChars c xs with
      | [] => [[x]]
      | g :: gs => (x :: g) :: gs

/-- `split` lifted to strings. -/
def strSplit (c : Char) (s : String) : List String :=
  (splitChars c s.data).map String.mk

/-- Accumulator pass of the decimal reader. -/
def digitsToNatAux : List Char → Nat → Option Nat
  | [], acc => some acc
  | ch :: cs, acc =>
    if 48 ≤ ch.toNat ∧ ch.toNat ≤ 57 then digitsToNatAux cs (acc * 10 + (ch.toNat - 48))
    else none

/-- Reading a decimal digit string as a number (none when empty or when a
non-digit occurs), the numeric parsing used by the decode paths. -/
def strToNat (s : String) : Option Nat :=
  match s.data with
  | [] => none
  | l => digitsToNatAux l 0

/-- Modelled from the spec (§4.1, §7): decoding one segment; malformed
text is a DecodeError. -/
def Segment.decode (s : String) : Except String Segment :=
  match strSplit ',' s with
  | [p, r, c] =>
    match strToNat p, strToNat c with
    | some pn, some cn => .ok ⟨pn, r, cn⟩
    | _, _ => .error "DecodeError: malformed segment"
  | _ => .error "DecodeError: malformed segment"

/-- Modelled from the spec (§4.1, §7): `Ident.parse`, the inverse of the
textual encoding; malformed text is a DecodeError surfaced to the caller. -/
def Ident.parse (s : String) : Except String Ident := do
  let segs ← (strSplit '.' s).mapM Segment.decode
  pure ⟨segs⟩

/-- A JavaScript runtime value as it can appear in an Op field. -/
inductive JsVal where
  | str : String → JsVal
  | num : Nat → JsVal
  | nan : JsVal
  | null : JsVal
  | undefined : JsVal
  | ident : Ident → JsVal
deriving DecidableEq

/-- JavaScript template interpolation of a value (String conversion). -/
def JsVal.templateStr : JsVal → String
  | .str s => s
  | .num n => toString n
  | .nan => "NaN"
  | .null => "null"
  | .undefined => "undefined"
  | .ident i => i.str

/-- An explicit JavaScript `x.toString()` call: faults on undefined/null. -/
def JsVal.dotToString : JsVal → Except String String
  | .str s => .ok s
  | .num n => .ok (toString n)
  | .nan => .ok "NaN"
  | .null => .error "TypeError: null has no toString"
  | .undefined => .error "TypeError: undefined has no toString"
  | .ident i => .ok i.str

/-- JavaScript `Number(x)` on the values the parse paths produce. -/
def JsVal.jsNumber : JsVal → JsVal
  | .str s => match strToNat s with | some n => .num n | none => .nan
  | .num n => .num n
  | _ => .nan

/-- The JavaScript comparison `x < d` for a numeric literal `d`: false for
`undefined` and `NaN` (used by the `maxDepth` update in Sequence.insert). -/
def JsVal.ltNum : JsVal → Nat → Bool
  | .num m, d => m < d
  | _, _ => false

/-- OpKind (Op.ts 6-17): a TypeScript numeric enum, `Insert = 1`. -/
def OpKind.Insert : Nat := 1

/-- OpKind (Op.ts 6-17): `Remove = 2`. -/
def OpKind.Remove : Nat := 2

/-- The Op record (Op.ts 22-70, 76-119, 124-159).  The two concrete classes
are flattened into one record; a RemoveOp simply leaves `value` as
`undefined`.  Field types are `JsVal` because the call sites in
Sequence.ts pass the constructors too few arguments. -/
structure Op where
  kind : Nat
  replica : JsVal
  time : JsVal
  id : JsVal
  value : JsVal
deriving DecidableEq

/-- The InsertOp constructor (Op.ts 96-100): parameters
(replica, time, id, value), kind `Insert`. -/
def InsertOp (replica time id value : JsVal) : Op :=
  { kind := OpKind.Insert, replica := replica, time := time, id := id, value := value }

/-- The RemoveOp constructor (Op.ts 138-141): parameters
(replica, time, id), kind `Remove`; it has no value field. -/
def RemoveOp (replica time id : JsVal) : Op :=
  { kind := OpKind.Remove, replica := replica, time := time, id := id, value := JsVal.undefined }

/-- JavaScript array destructuring `let [a, b, ...] = parts`: a missing
element is `undefined`. -/
def partAt (parts : List String) (i : Nat) : JsVal :=
  match parts[i]? with
  | some s => .str s
  | none => .undefined

/-- InsertOp.toString (Op.ts 115-117):
`+${replica}:${time}:${id.toString()}:${value.toString()}`.
RemoveOp.toString (Op.ts 156-158): `-${replica}:${time}:${id.toString()}`.
The explicit `.toString()` calls fault on undefined. -/
def Op.encode (op : Op) : Except String String :=
  if op.kind = OpKind.Insert then do
    let idStr ← op.id.dotToString
    let valStr ← op.value.dotToString
    pure ("+" ++ op.replica.templateStr ++ ":" ++ op.time.templateStr ++ ":" ++ idStr ++ ":" ++ valStr)
  else if op.kind = OpKind.Remove then do
    let idStr ← op.id.dotToString
    pure ("-" ++ op.replica.templateStr ++ ":" ++ op.time.templateStr ++ ":" ++ idStr)
  else .error "TypeError: abstract toString"

/-- InsertOp.parse (Op.ts 107-110):
`let [replica, time, id, value] = str.substr(1).split(':')` followed by
`new InsertOp(replica, Number(time), Ident.parse(str), value)`.
Note that the source passes the whole encoded op string `str` to
`Ident.parse`, not the destructured `id` field, which is left unused. -/
def InsertOp.parse (str : String) : Except String Op := do
  let parts := (splitChars ':' (str.data.drop 1)).map String.mk
  let i ← Ident.parse str
  pure (InsertOp (partAt parts 0) (partAt parts 1).jsNumber (JsVal.ident i) (partAt parts 3))

/-- RemoveOp.parse (Op.ts 148-151): same shape as InsertOp.parse, and the
source likewise passes the whole string `str` to `Ident.parse`. -/
def RemoveOp.parse (str : String) : Except String Op := do
  let parts := (splitChars ':' (str.data.drop 1)).map String.mk
  let i ← Ident.parse str
  pure (RemoveOp (partAt parts 0) (partAt parts 1).jsNumber (JsVal.ident i))

/-- Op.parse (Op.ts 57-63): dispatch on the leading character; the switch
has no default case, so any other input (including the empty string)
falls through and the function returns `undefined`, modelled as
`.ok none`. -/
def Op.parse (str : String) : Except String (Option Op) :=
  match str.data with
  | [] => .ok none
  | c :: _ =>
    if c = '+' then (InsertOp.parse str).map some
    else if c = '-' then (RemoveOp.parse str).map some
    else .ok none

/-- An Atom (spec §3): an (Identifier, value) pair; sentinels carry null. -/
structure Atom where
  id : Ident
  value : JsVal
deriving DecidableEq

/-- Modelled from the spec (§4.3): the storage module is absent from src/.
Ordered Storage holds atoms in ascending identifier order. -/
structure Storage where
  atoms : List Atom
deriving DecidableEq

/-- Modelled from the spec (§4.3): ordered insertion that is a no-op when
the identifier is already present (idempotence for replay safety). -/
def Storage.addList (i : Ident) (v : JsVal) : List Atom → List Atom
  | [] => [⟨i, v⟩]
  | a :: rest =>
    match Ident.cmp i a.id with
    | .lt => ⟨i, v⟩ :: a :: rest
    | .eq => a :: rest
    | .gt => a :: Storage.addList i v rest

/-- Modelled from the spec (§4.3): deletion by identifier, a no-op when
the identifier is absent. -/
def Storage.removeList (i : Ident) : List Atom → List Atom
  | [] => []
  | a :: rest => if a.id = i then rest else a :: Storage.removeList i rest

/-- `Storage.add(id, value)` as called with a JavaScript value for the id:
the storage is keyed by identifiers (spec §4.3 types the parameter as
Ident), so a non-identifier id faults its comparator. -/
def Storage.add (st : Storage) (id v : JsVal) : Except String Storage :=
  match id with
  | .ident i => .ok ⟨Storage.addList i v st.atoms⟩
  | _ => .error "TypeError: storage ids are Identifiers"

/-- `Storage.remove(id)` with a JavaScript value for the id; as for add,
a non-identifier id faults the comparator. -/
def Storage.remove (st : Storage) (id : JsVal) : Except String Storage :=
  match id with
  | .ident i => .ok ⟨Storage.removeList i st.atoms⟩
  | _ => .error "TypeError: storage ids are Identifiers"

/-- Modelled from the spec (§4.3): `get(pos)` is a zero-based positional
lookup counting sentinels, returning a not-found indicator when out of
range; a negative JavaScript index is out of range. -/
def Storage.get (st : Storage) (pos : Int) : Option Atom :=
  if pos < 0 then none else st.atoms[pos.toNat]?

/-- Modelled from the spec (§4.3): `size()` is the total atom count,
sentinels included. -/
def Storage.size (st : Storage) : Nat :=
  st.atoms.length

/-- Modelled from the spec (§2, §4.3, §6): `map` traverses the user atoms
in ascending order; the two permanent sentinel bounds (the extremal
atoms) are not visited. -/
def Storage.map (st : Storage) (f : Atom → α) : List α :=
  ((st.atoms.drop 1).dropLast).map f

/-- Modelled from the spec (§4.2): the base of the identifier space;
positions at depth 1 lie in `[0, 2^base)` and the bound doubles with
each further depth. -/
def lseqBase : Nat := 4

/-- Modelled from the spec (§4.2): the exclusive position bound at a
given depth. -/
def boundAt (d : Nat) : Nat := 2 ^ (lseqBase + d - 1)

/-- Modelled from the spec (§3): the MIN sentinel, depth 1, position 0. -/
def minSentinel : Ident := ⟨[⟨0, "", 0⟩]⟩

/-- Modelled from the spec (§3): the MAX sentinel, depth 1, position
`2^base - 1`. -/
def maxSentinel : Ident := ⟨[⟨boundAt 1 - 1, "", 0⟩]⟩

/-- Modelled from the spec (§4.2): the LSEQ boundary allocation walk.  A
missing segment counts as position 0 for the low bound and as the depth's
bound for the high bound; if the gap at the current depth admits a
position strictly inside it, allocate there with a fresh disambiguator,
otherwise keep the low bound's segment and descend one depth.  The
randomized offset and the per-depth direction memory are performance
heuristics that the spec states do not affect correctness; this model
fixes the offset at 1 and the bias toward the low bound. -/
def allocSegs (replica : String) (counter : Nat) : Nat → List Segment → List Segment → List Segment
  | _, [], [] => [⟨1, replica, counter⟩]
  | d, l :: ls, [] =>
    if l.pos + 1 < boundAt d then [⟨l.pos + 1, replica, counter⟩]
    else l :: allocSegs replica counter (d + 1) ls []
  | d, [], h :: hs =>
    if 1 < h.pos then [⟨1, replica, counter⟩]
    else ⟨0, replica, counter⟩ :: allocSegs replica counter (d + 1) [] hs
  | d, l :: ls, h :: hs =>
    if l.pos + 1 < h.pos then [⟨l.pos + 1, replica, counter⟩]
    else l :: allocSegs replica counter (d + 1) ls hs

/-- Modelled from the spec (§4.2): `allocate(low, high)` starts the
boundary walk at depth 1 and stamps the allocating replica's id and its
local logical counter as the disambiguator. -/
def allocate (replica : String) (counter : Nat) (low high : Ident) : Ident :=
  ⟨allocSegs replica counter 1 low.segments high.segments⟩

/-- The Sequence state (Sequence.ts 10-38).  `maxDepth` has type `JsVal`
because the constructor (Sequence.ts 31-38) never assigns it, so it holds
`undefined` at run time.  `counter` is the generator's local logical
counter (idents module, modelled from the spec §4.2). -/
structure Sequence where
  replica : String
  maxDepth : JsVal
  counter : Nat
  storage : Storage
deriving DecidableEq

/-- The Sequence constructor (Sequence.ts 31-38): fresh storage, the two
sentinel bookends added with null values; `maxDepth` is never assigned. -/
def Sequence.new (replica : String) : Sequence :=
  { replica := replica
    maxDepth := JsVal.undefined
    counter := 0
    storage := ⟨Storage.addList maxSentinel JsVal.null (Storage.addList minSentinel JsVal.null [])⟩ }

/-- Sequence.size (Sequence.ts 44-46): `storage.size() - 2`, as a
JavaScript number (so it can in principle go negative). -/
def Sequence.size (s : Sequence) : Int :=
  (s.storage.size : Int) - 2

/-- Sequence.depth (Sequence.ts 53-55): returns the `maxDepth` field. -/
def Sequence.depth (s : Sequence) : JsVal :=
  s.maxDepth

/-- Sequence.apply (Sequence.ts 155-168): dispatch on `op.kind`;
Insert → `storage.add(op.id, op.value)`, Remove → `storage.remove(op.id)`,
anything else throws `Unknown op kind`. -/
def Sequence.apply (s : Sequence) (op : Op) : Except String Sequence :=
  if op.kind = OpKind.Insert then
    (s.storage.add op.id op.value).map fun st => { s with storage := st }
  else if op.kind = OpKind.Remove then
    (s.storage.remove op.id).map fun st => { s with storage := st }
  else .error ("Unknown op kind " ++ toString op.kind)

/-- Sequence.insert (Sequence.ts 64-75): resolve `storage.get(pos)` and
`storage.get(pos + 1)` (reading `.id` of an out-of-range result faults),
allocate a new identifier between them, build the op, apply it, then
update `maxDepth` when `maxDepth < id.getDepth()`.
The source builds the op as `new InsertOp(id, value)` — two arguments for
the four-parameter constructor (replica, time, id, value) — so the op's
replica field receives the identifier, its time field receives the value,
and its id and value fields are `undefined`. -/
def Sequence.insert (s : Sequence) (value : String) (pos : Int) : Except String (Op × Sequence) :=
  match s.storage.get pos, s.storage.get (pos + 1) with
  | some before, some after =>
    let id := allocate s.replica s.counter before.id after.id
    let s1 : Sequence := { s with counter := s.counter + 1 }
    let op := InsertOp (JsVal.ident id) (JsVal.str value) JsVal.undefined JsVal.undefined
    match Sequence.apply s1 op with
    | .ok s2 =>
      if JsVal.ltNum s2.maxDepth id.getDepth then
        .ok (op, { s2 with maxDepth := JsVal.num id.getDepth })
      else
        .ok (op, s2)
    | .error e => .error e
  | _, _ => .error "TypeError: cannot read property id of undefined"

/-- Sequence.append (Sequence.ts 83-85): `insert(value, size())`. -/
def Sequence.append (s : Sequence) (value : String) : Except String (Op × Sequence) :=
  s.insert value s.size

/-- Sequence.remove (Sequence.ts 93-101): fetch `storage.get(pos)` (note:
not `pos + 1`, so position 0 is the MIN sentinel); when an atom is found,
build the op and apply it, else return null.
The source builds the op as `new RemoveOp(atom.id)` — one argument for the
three-parameter constructor (replica, time, id) — so the op's replica
field receives the atom's identifier and its time and id fields are
`undefined`. -/
def Sequence.remove (s : Sequence) (pos : Int) : Except String (Option Op × Sequence) :=
  match s.storage.get pos with
  | some atom =>
    let op := RemoveOp (JsVal.ident atom.id) JsVal.undefined JsVal.undefined
    (Sequence.apply s op).map fun s2 => (some op, s2)
  | none => .ok (none, s)

/-- Sequence.get (Sequence.ts 109-112): `storage.get(pos + 1)`, value or
undefined. -/
def Sequence.getAt (s : Sequence) (pos : Int) : Option JsVal :=
  (s.storage.get (pos + 1)).map Atom.value

/-- Sequence.toArray (Sequence.ts 135-137): `storage.map(atom => atom.value)`. -/
def Sequence.toArray (s : Sequence) : List JsVal :=
  s.storage.map Atom.value

/-- Sequence.toJSON (Sequence.ts 143-148): the pair of the replica id and
`storage.map(atom => [atom.id.toString(), atom.value])`. -/
def Sequence.toJSON (s : Sequence) : String × List (String × JsVal) :=
  (s.replica, s.storage.map fun a => (a.id.str, a.value))

/-! Derived notions used by the statements: strict atom order, reachable
sequence states, and concrete sample data for evaluations. -/

/-- Strict order on atoms induced by identifier comparison (spec §3:
ordering of atoms by identifier defines the visible sequence order). -/
def Atom.lt (a b : Atom) : Prop :=
  Ident.cmp a.id b.id = Ordering.lt

instance : DecidableRel Atom.lt := fun a b => by
  unfold Atom.lt
  infer_instance

/-- The MIN sentinel atom as created by the Sequence constructor. -/
def minAtom : Atom := ⟨minSentinel, JsVal.null⟩

/-- The MAX sentinel atom as created by the Sequence constructor. -/
def maxAtom : Atom := ⟨maxSentinel, JsVal.null⟩

/-- An op is protocol-safe when, if it is a RemoveOp, its id is not one of
the two sentinel identifiers (ops produced by a correct protocol never
target a sentinel). -/
def opSafe (op : Op) : Prop :=
  op.kind = OpKind.Remove → op.id ≠ JsVal.ident minSentinel ∧ op.id ≠ JsVal.ident maxSentinel

/-- Sequence states reachable from a freshly constructed Sequence by the
public operations insert, append, remove and apply, where apply only
receives protocol-safe ops. -/
inductive Reach (replica : String) : Sequence → Prop where
  | init : Reach replica (Sequence.new replica)
  | insertStep : ∀ {s : Sequence} {v : String} {pos : Int} {op : Op} {s' : Sequence},
      Reach replica s → Sequence.insert s v pos = .ok (op, s') → Reach replica s'
  | appendStep : ∀ {s : Sequence} {v : String} {op : Op} {s' : Sequence},
      Reach replica s → Sequence.append s v = .ok (op, s') → Reach replica s'
  | removeStep : ∀ {s : Sequence} {pos : Int} {r : Option Op × Sequence},
      Reach replica s → Sequence.remove s pos = .ok r → Reach replica r.2
  | applyStep : ∀ {s : Sequence} {op : Op} {s' : Sequence},
      Reach replica s → opSafe op → Sequence.apply s op = .ok s' → Reach replica s'

/-- Storage invariant: atoms strictly ascending, both sentinel atoms
present. -/
def StInv (l : List Atom) : Prop :=
  l.Pairwise Atom.lt ∧ minAtom ∈ l ∧ maxAtom ∈ l

/-- A sample user identifier strictly between the sentinels. -/
def idX : Ident := ⟨[⟨5, "A", 0⟩]⟩

/-- A sample identifier of depth 3. -/
def deepId : Ident := ⟨[⟨1, "B", 0⟩, ⟨1, "B", 1⟩, ⟨1, "B", 2⟩]⟩

/-- The identifier Sequence.insert allocates for the first insertion on a
fresh Sequence with replica "A" (between the two sentinels). -/
def newId0 : Ident := allocate "A" 0 minSentinel maxSentinel

/-- A well-formed remote InsertOp carrying the value "x" at `idX`. -/
def goodInsertX : Op := InsertOp (JsVal.str "A") (JsVal.num 0) (JsVal.ident idX) (JsVal.str "x")

/-- A well-formed remote InsertOp carrying a depth-3 identifier. -/
def deepInsert : Op := InsertOp (JsVal.str "B") (JsVal.num 3) (JsVal.ident deepId) (JsVal.str "z")

/-- A RemoveOp that maliciously targets the MIN sentinel identifier. -/
def hostileRemove : Op := RemoveOp (JsVal.str "B") (JsVal.num 0) (JsVal.ident minSentinel)

/-- Replica B's sequence after receiving `goodInsertX`. -/
def seqOneB : Sequence :=
  match (Sequence.new "B").apply goodInsertX with
  | .ok s => s
  | .error _ => Sequence.new "B"

/-- Replica A's sequence after receiving `deepInsert`. -/
def seqDeepA : Sequence :=
  match (Sequence.new "A").apply deepInsert with
  | .ok s => s
  | .error _ => Sequence.new "A"

/-! Order theory for the identifier comparison. -/

theorem Segment.seg_cmp_eq_iff (a b : Segment) : Segment.cmp a b = .eq ↔ a = b := by
  constructor
  · intro h
    unfold Segment.cmp at h
    split_ifs at h with h1 h2 h3 h4 h5 h6
    have hp : a.pos = b.pos := by omega
    have hr : a.replica = b.replica := le_antisymm (not_lt.mp h4) (not_lt.mp h3)
    have hc : a.counter = b.counter := by omega
    cases a
    cases b
    simp_all
  · intro h
    subst h
    unfold Segment.cmp
    simp [lt_irrefl]

theorem Segment.seg_cmp_lt_iff (a b : Segment) :
    Segment.cmp a b = .lt ↔
      (a.pos < b.pos ∨ (a.pos = b.pos ∧ (a.replica < b.replica ∨
        (a.replica = b.replica ∧ a.counter < b.counter)))) := by
  unfold Segment.cmp
  split_ifs with h1 h2 h3 h4 h5 h6
  · simp [h1]
  · constructor
    · intro h; cases h
    · intro h
      rcases h with h | ⟨he, _⟩
      · exact absurd h h1
      · omega
  · constructor
    · intro _
      exact Or.inr ⟨by omega, Or.inl h3⟩
    · intro _; rfl
  · constructor
    · intro h; cases h
    · intro h
      rcases h with h | ⟨_, h | ⟨he, _⟩⟩
      · exact absurd h h1
      · exact absurd h (asymm h4)
      · exact absurd h4 (he ▸ lt_irrefl _)
  · constructor
    · intro _
      refine Or.inr ⟨by omega, Or.inr ⟨le_antisymm (not_lt.mp h4) (not_lt.mp h3), h5⟩⟩
    · intro _; rfl
  · constructor
    · intro h; cases h
    · intro h
      rcases h with h | ⟨_, h | ⟨_, h⟩⟩
      · exact absurd h h1
      · exact absurd h h3
      · omega
  · constructor
    · intro h; cases h
    · intro h
      rcases h with h | ⟨_, h | ⟨_, h⟩⟩
      · exact absurd h h1
      · exact absurd h h3
      · exact absurd h h5

theorem Segment.seg_cmp_gt_iff (a b : Segment) :
    Segment.cmp a b = .gt ↔ Segment.cmp b a = .lt := by
  rw [Segment.seg_cmp_lt_iff]
  unfold Segment.cmp
  split_ifs with h1 h2 h3 h4 h5 h6
  · constructor
    · intro h; cases h
    · intro h
      rcases h with h | ⟨_, _⟩
      · exact absurd h1 (asymm h)
      · omega
  · simp [h2]
  · constructor
    · intro h; cases h
    · intro h
      rcases h with h | ⟨_, h | ⟨he, _⟩⟩
      · omega
      · exact absurd h3 (asymm h)
      · exact absurd h3 (he ▸ lt_irrefl _)
  · constructor
    · intro _
      exact Or.inr ⟨by omega, Or.inl h4⟩
    · intro _; rfl
  · constructor
    · intro h; cases h
    · intro h
      rcases h with h | ⟨_, h | ⟨_, h⟩⟩
      · omega
      · exact absurd h h4
      · exact absurd h5 (asymm h)
  · constructor
    · intro _
      refine Or.inr ⟨by omega, Or.inr ⟨le_antisymm (not_lt.mp h3) (not_lt.mp h4), h6⟩⟩
    · intro _; rfl
  · constructor
    · intro h; cases h
    · intro h
      rcases h with h | ⟨_, h | ⟨_, h⟩⟩
      · omega
      · exact absurd h h4
      · omega

theorem Segment.seg_cmp_lt_trans {a b c : Segment}
    (h1 : Segment.cmp a b = .lt) (h2 : Segment.cmp b c = .lt) :
    Segment.cmp a c = .lt := by
  rw [Segment.seg_cmp_lt_iff] at h1 h2 ⊢
  rcases h1 with h1 | ⟨e1, h1⟩ <;> rcases h2 with h2 | ⟨e2, h2⟩
  · exact Or.inl (h1.trans h2)
  · exact Or.inl (e2 ▸ h1)
  · exact Or.inl (e1 ▸ h2)
  · refine Or.inr ⟨e1.trans e2, ?_⟩
    rcases h1 with h1 | ⟨f1, h1⟩ <;> rcases h2 with h2 | ⟨f2, h2⟩
    · exact Or.inl (h1.trans h2)
    · exact Or.inl (f2 ▸ h1)
    · exact Or.inl (f1 ▸ h2)
    · exact Or.inr ⟨f1.trans f2, h1.trans h2⟩

theorem Ident.cmpSegs_eq_iff : ∀ (l1 l2 : List Segment), Ident.cmpSegs l1 l2 = .eq ↔ l1 = l2
  | [], [] => by simp [Ident.cmpSegs]
  | [], _ :: _ => by simp [Ident.cmpSegs]
  | _ :: _, [] => by simp [Ident.cmpSegs]
  | a :: as, b :: bs => by
    simp only [Ident.cmpSegs]
    cases h : Segment.cmp a b with
    | lt =>
      constructor
      · intro hc; cases hc
      · intro hc
        injection hc with hab htl
        rw [hab, (Segment.seg_cmp_eq_iff b b).mpr rfl] at h
        cases h
    | eq =>
      have hab : a = b := (Segment.seg_cmp_eq_iff a b).mp h
      subst hab
      rw [Ident.cmpSegs_eq_iff as bs]
      constructor
      · intro hc; rw [hc]
      · intro hc; injection hc
    | gt =>
      constructor
      · intro hc; cases hc
      · intro hc
        injection hc with hab htl
        rw [hab, (Segment.seg_cmp_eq_iff b b).mpr rfl] at h
        cases h

theorem Ident.cmpSegs_lt_trans :
    ∀ {l1 l2 l3 : List Segment}, Ident.cmpSegs l1 l2 = .lt → Ident.cmpSegs l2 l3 = .lt →
      Ident.cmpSegs l1 l3 = .lt
  | [], _, [] => fun _ h2 => by cases l2h : ‹List Segment› <;> simp_all [Ident.cmpSegs]
  | [], _, _ :: _ => fun _ _ => by simp [Ident.cmpSegs]
  | _ :: _, [], _ => fun h1 _ => by cases h1
  | a :: as, b :: bs, [] => fun _ h2 => by cases h2
  | a :: as, b :: bs, c :: cs => fun h1 h2 => by
    simp only [Ident.cmpSegs] at h1 h2 ⊢
    cases hab : Segment.cmp a b with
    | gt => rw [hab] at h1; cases h1
    | lt =>
      cases hbc : Segment.cmp b c with
      | gt => rw [hbc] at h2; cases h2
      | lt => rw [Segment.seg_cmp_lt_trans hab hbc]
      | eq =>
        have : b = c := (Segment.seg_cmp_eq_iff b c).mp hbc
        rw [← this, hab]
    | eq =>
      have hab' : a = b := (Segment.seg_cmp_eq_iff a b).mp hab
      subst hab'
      rw [hab] at h1
      cases hbc : Segment.cmp a c with
      | gt => rw [hbc] at h2; cases h2
      | lt => rfl
      | eq =>
        rw [hbc] at h2
        exact Ident.cmpSegs_lt_trans h1 h2

theorem Ident.cmpSegs_gt_iff :
    ∀ (l1 l2 : List Segment), Ident.cmpSegs l1 l2 = .gt ↔ Ident.cmpSegs l2 l1 = .lt
  | [], [] => by simp [Ident.cmpSegs]
  | [], _ :: _ => by simp [Ident.cmpSegs]
  | _ :: _, [] => by simp [Ident.cmpSegs]
  | a :: as, b :: bs => by
    simp only [Ident.cmpSegs]
    cases h : Segment.cmp a b with
    | lt =>
      have : Segment.cmp b a ≠ .lt := by
        intro hba
        have := Segment.seg_cmp_lt_trans h hba
        rw [(Segment.seg_cmp_eq_iff a a).mpr rfl] at this
        cases this
      have hgt : Segment.cmp b a = .gt := by
        cases hba : Segment.cmp b a with
        | lt => exact absurd hba this
        | eq =>
          have := (Segment.seg_cmp_eq_iff b a).mp hba
          subst this
          rw [(Segment.seg_cmp_eq_iff b b).mpr rfl] at h
          cases h
        | gt => rfl
      rw [hgt]
      constructor
      · intro hc; cases hc
      · intro hc; cases hc
    | eq =>
      have hab : a = b := (Segment.seg_cmp_eq_iff a b).mp h
      subst hab
      rw [(Segment.seg_cmp_eq_iff a a).mpr rfl]
      exact Ident.cmpSegs_gt_iff as bs
    | gt =>
      rw [(Segment.seg_cmp_gt_iff a b).mp h]
      constructor
      · intro _; rfl
      · intro _; rfl

theorem Ident.cmp_eq_iff (a b : Ident) : Ident.cmp a b = .eq ↔ a = b := by
  cases a
  cases b
  rw [Ident.cmp, Ident.cmpSegs_eq_iff]
  simp

theorem Ident.cmp_refl (a : Ident) : Ident.cmp a a = .eq :=
  (Ident.cmp_eq_iff a a).mpr rfl

theorem Ident.cmp_lt_trans {a b c : Ident}
    (h1 : Ident.cmp a b = .lt) (h2 : Ident.cmp b c = .lt) : Ident.cmp a c = .lt :=
  Ident.cmpSegs_lt_trans h1 h2

theorem Ident.cmp_gt_iff (a b : Ident) : Ident.cmp a b = .gt ↔ Ident.cmp b a = .lt :=
  Ident.cmpSegs_gt_iff a.segments b.segments

theorem Ident.cmp_lt_ne {a b : Ident} (h : Ident.cmp a b = .lt) : a ≠ b := by
  intro he
  rw [he, Ident.cmp_refl] at h
  cases h

theorem Atom.lt_trans {a b c : Atom} (h1 : Atom.lt a b) (h2 : Atom.lt b c) : Atom.lt a c :=
  Ident.cmp_lt_trans h1 h2

theorem Atom.lt_irrefl (a : Atom) : ¬ Atom.lt a a := by
  intro h
  rw [Atom.lt, Ident.cmp_refl] at h
  cases h

theorem Atom.lt_id_ne {a b : Atom} (h : Atom.lt a b) : a.id ≠ b.id :=
  Ident.cmp_lt_ne h

/-! Ordered-storage lemmas. -/

theorem Storage.mem_addList {x : Atom} {i : Ident} {v : JsVal} :
    ∀ {l : List Atom}, x ∈ Storage.addList i v l → x = ⟨i, v⟩ ∨ x ∈ l := by
  intro l
  induction l with
  | nil => intro h; simp [Storage.addList] at h; exact Or.inl h
  | cons a rest ih =>
    intro h
    unfold Storage.addList at h
    cases hc : Ident.cmp i a.id with
    | lt =>
      rw [hc] at h
      rcases List.mem_cons.mp h with h | h
      · exact Or.inl h
      · exact Or.inr h
    | eq =>
      rw [hc] at h
      exact Or.inr h
    | gt =>
      rw [hc] at h
      rcases List.mem_cons.mp h with h | h
      · exact Or.inr (List.mem_cons.mpr (Or.inl h))
      · rcases ih h with h' | h'
        · exact Or.inl h'
        · exact Or.inr (List.mem_cons_of_mem a h')

theorem Storage.subset_addList {x : Atom} (i : Ident) (v : JsVal) :
    ∀ {l : List Atom}, x ∈ l → x ∈ Storage.addList i v l := by
  intro l
  induction l with
  | nil => intro h; cases h
  | cons a rest ih =>
    intro h
    unfold Storage.addList
    cases hc : Ident.cmp i a.id with
    | lt => exact List.mem_cons_of_mem _ h
    | eq => exact h
    | gt =>
      rcases List.mem_cons.mp h with h' | h'
      · exact h' ▸ List.mem_cons_self _ _
      · exact List.mem_cons_of_mem _ (ih h')

theorem Storage.addList_sorted {i : Ident} {v : JsVal} :
    ∀ {l : List Atom}, l.Pairwise Atom.lt → (Storage.addList i v l).Pairwise Atom.lt := by
  intro l
  induction l with
  | nil => intro _; simp [Storage.addList]
  | cons a rest ih =>
    intro h
    rcases List.pairwise_cons.mp h with ⟨h1, h2⟩
    unfold Storage.addList
    cases hc : Ident.cmp i a.id with
    | lt =>
      refine List.pairwise_cons.mpr ⟨?_, h⟩
      intro b hb
      rcases List.mem_cons.mp hb with hb | hb
      · exact hb ▸ hc
      · exact Atom.lt_trans hc (h1 b hb)
    | eq => exact h
    | gt =>
      refine List.pairwise_cons.mpr ⟨?_, ih h2⟩
      intro b hb
      rcases Storage.mem_addList hb with hb | hb
      · exact hb ▸ (Ident.cmp_gt_iff i a.id).mp hc
      · exact h1 b hb

theorem Storage.addList_of_mem_id {i : Ident} {v : JsVal} :
    ∀ {l : List Atom}, l.Pairwise Atom.lt → ∀ {a : Atom}, a ∈ l → a.id = i →
      Storage.addList i v l = l := by
  intro l
  induction l with
  | nil => intro _ a ha; cases ha
  | cons b rest ih =>
    intro h a ha hid
    rcases List.pairwise_cons.mp h with ⟨h1, h2⟩
    unfold Storage.addList
    cases hc : Ident.cmp i b.id with
    | lt =>
      exfalso
      rcases List.mem_cons.mp ha with ha | ha
      · rw [ha] at hid
        exact Ident.cmp_lt_ne (hid ▸ hc) rfl
      · have hba : Ident.cmp b.id a.id = .lt := h1 a ha
        have : Ident.cmp i a.id = .lt := Ident.cmp_lt_trans hc hba
        exact Ident.cmp_lt_ne (hid ▸ this) rfl
    | eq => rfl
    | gt =>
      rcases List.mem_cons.mp ha with ha | ha
      · exfalso
        have : Ident.cmp b.id i = .lt := (Ident.cmp_gt_iff i b.id).mp hc
        rw [ha] at hid
        exact Ident.cmp_lt_ne (hid ▸ this) rfl
      · rw [ih h2 ha hid]

theorem Storage.removeList_sublist (i : Ident) :
    ∀ (l : List Atom), List.Sublist (Storage.removeList i l) l := by
  intro l
  induction l with
  | nil => simp [Storage.removeList]
  | cons a rest ih =>
    unfold Storage.removeList
    by_cases h : a.id = i
    · rw [if_pos h]
      exact List.sublist_cons_self a rest
    · rw [if_neg h]
      exact List.Sublist.cons₂ a ih

theorem Storage.mem_removeList_of_ne {x : Atom} {i : Ident} (hne : x.id ≠ i) :
    ∀ {l : List Atom}, x ∈ l → x ∈ Storage.removeList i l := by
  intro l
  induction l with
  | nil => intro h; cases h
  | cons a rest ih =>
    intro h
    unfold Storage.removeList
    by_cases ha : a.id = i
    · rw [if_pos ha]
      rcases List.mem_cons.mp h with h' | h'
      · exact absurd (h' ▸ ha) hne
      · exact h'
    · rw [if_neg ha]
      rcases List.mem_cons.mp h with h' | h'
      · exact h' ▸ List.mem_cons_self _ _
      · exact List.mem_cons_of_mem _ (ih h')

theorem Storage.mem_unique_id :
    ∀ {l : List Atom}, l.Pairwise Atom.lt → ∀ {a b : Atom}, a ∈ l → b ∈ l →
      a.id = b.id → a = b := by
  intro l
  induction l with
  | nil => intro _ a b ha; cases ha
  | cons c rest ih =>
    intro h a b ha hb hid
    rcases List.pairwise_cons.mp h with ⟨h1, h2⟩
    rcases List.mem_cons.mp ha with ha' | ha' <;> rcases List.mem_cons.mp hb with hb' | hb'
    · rw [ha', hb']
    · exact absurd (ha' ▸ hid) (Atom.lt_id_ne (h1 b hb'))
    · exact absurd (hb' ▸ hid.symm) (Atom.lt_id_ne (h1 a ha'))
    · exact ih h2 ha' hb' hid

theorem Storage.countP_le_one {l : List Atom} (hs : l.Pairwise Atom.lt) (i : Ident) :
    l.countP (fun x => x.id == i) ≤ 1 := by
  induction l with
  | nil => simp
  | cons a rest ih =>
    rcases List.pairwise_cons.mp hs with ⟨h1, h2⟩
    rw [List.countP_cons]
    by_cases hai : a.id = i
    · have hz : rest.countP (fun x => x.id == i) = 0 := by
        refine List.countP_eq_zero.mpr ?_
        intro x hx
        have : a.id ≠ x.id := Atom.lt_id_ne (h1 x hx)
        simp only [beq_iff_eq]
        intro hxe
        exact this (hai.trans hxe.symm)
      simp [hz, hai]
    · simp only [beq_iff_eq, hai]
      simpa using ih h2

theorem Storage.countP_eq_one {l : List Atom} (hs : l.Pairwise Atom.lt) {a : Atom}
    (ha : a ∈ l) : l.countP (fun x => x.id == a.id) = 1 := by
  have hle := Storage.countP_le_one hs a.id
  have hpos : 0 < l.countP (fun x => x.id == a.id) :=
    List.countP_pos.mpr ⟨a, ha, by simp⟩
  omega

theorem Storage.length_split3 (p q : Atom → Bool) (hpq : ∀ x, p x = true → q x = false) :
    ∀ l : List Atom,
      l.length = l.countP p + l.countP q + (l.filter fun x => !p x && !q x).length := by
  intro l
  induction l with
  | nil => simp
  | cons a rest ih =>
    rw [List.countP_cons, List.countP_cons, List.filter_cons]
    cases hp : p a <;> cases hq : q a
    · simp [hp, hq, ih]
      omega
    · simp [hp, hq, ih]
      omega
    · simp [hp, hq, ih]
      omega
    · exact absurd (hpq a hp) (by simp [hq])

/-! Sequence-level helper lemmas. -/

theorem apply_insertOp_undef (s : Sequence) (r t : JsVal) :
    Sequence.apply s (InsertOp r t JsVal.undefined JsVal.undefined) =
      .error "TypeError: storage ids are Identifiers" := rfl

theorem apply_removeOp_undef (s : Sequence) (r t : JsVal) :
    Sequence.apply s (RemoveOp r t JsVal.undefined) =
      .error "TypeError: storage ids are Identifiers" := rfl

theorem apply_insert_ident_shape (s : Sequence) (op : Op) (hk : op.kind = OpKind.Insert) :
    (∃ i : Ident, op.id = JsVal.ident i ∧
      Sequence.apply s op = .ok { s with storage := ⟨Storage.addList i op.value s.storage.atoms⟩ }) ∨
    Sequence.apply s op = .error "TypeError: storage ids are Identifiers" := by
  cases hid : op.id
  case ident i =>
    refine Or.inl ⟨i, rfl, ?_⟩
    unfold Sequence.apply Storage.add
    rw [if_pos hk, hid]
    rfl
  all_goals
    refine Or.inr ?_
    unfold Sequence.apply Storage.add
    rw [if_pos hk, hid]
    rfl

theorem apply_remove_ident_shape (s : Sequence) (op : Op)
    (hk1 : op.kind ≠ OpKind.Insert) (hk2 : op.kind = OpKind.Remove) :
    (∃ i : Ident, op.id = JsVal.ident i ∧
      Sequence.apply s op = .ok { s with storage := ⟨Storage.removeList i s.storage.atoms⟩ }) ∨
    Sequence.apply s op = .error "TypeError: storage ids are Identifiers" := by
  cases hid : op.id
  case ident i =>
    refine Or.inl ⟨i, rfl, ?_⟩
    unfold Sequence.apply Storage.remove
    rw [if_neg hk1, if_pos hk2, hid]
    rfl
  all_goals
    refine Or.inr ?_
    unfold Sequence.apply Storage.remove
    rw [if_neg hk1, if_pos hk2, hid]
    rfl

theorem apply_unknown_kind (s : Sequence) (op : Op)
    (hk1 : op.kind ≠ OpKind.Insert) (hk2 : op.kind ≠ OpKind.Remove) :
    Sequence.apply s op = .error ("Unknown op kind " ++ toString op.kind) := by
  unfold Sequence.apply
  rw [if_neg hk1, if_neg hk2]

theorem insert_not_ok (s : Sequence) (v : String) (pos : Int) (x : Op × Sequence) :
    Sequence.insert s v pos ≠ Except.ok x := by
  intro h
  unfold Sequence.insert at h
  cases h1 : s.storage.get pos <;> cases h2 : s.storage.get (pos + 1) <;>
    rw [h1, h2] at h <;> simp [apply_insertOp_undef] at h

theorem remove_ok_eq (s : Sequence) (pos : Int) (r : Option Op × Sequence)
    (h : Sequence.remove s pos = .ok r) : r = (none, s) := by
  unfold Sequence.remove at h
  cases hg : s.storage.get pos with
  | some atom =>
    rw [hg] at h
    simp [apply_removeOp_undef, Except.map] at h
  | none =>
    rw [hg] at h
    injection h with h
    exact h.symm

theorem Reach.stInv {replica : String} {s : Sequence} (h : Reach replica s) :
    StInv s.storage.atoms := by
  induction h with
  | init =>
    show StInv [minAtom, maxAtom]
    refine ⟨?_, ?_, ?_⟩ <;> decide
  | insertStep hr hstep ih => exact absurd hstep (insert_not_ok _ _ _ _)
  | appendStep hr hstep ih => exact absurd hstep (insert_not_ok _ _ _ _)
  | removeStep hr hstep ih =>
    rw [remove_ok_eq _ _ _ hstep]
    exact ih
  | @applyStep s1 op s2 hr hsafe hstep ih =>
    obtain ⟨hp, hmin, hmax⟩ := ih
    by_cases hk1 : op.kind = OpKind.Insert
    · rcases apply_insert_ident_shape _ _ hk1 with ⟨i, hid, happ⟩ | happ
      · rw [happ] at hstep
        injection hstep with he
        rw [← he]
        exact ⟨Storage.addList_sorted hp, Storage.subset_addList _ _ hmin,
          Storage.subset_addList _ _ hmax⟩
      · rw [happ] at hstep; cases hstep
    · by_cases hk2 : op.kind = OpKind.Remove
      · rcases apply_remove_ident_shape _ _ hk1 hk2 with ⟨i, hid, happ⟩ | happ
        · rw [happ] at hstep
          injection hstep with he
          rw [← he]
          obtain ⟨hne1, hne2⟩ := hsafe hk2
          refine ⟨List.Pairwise.sublist (Storage.removeList_sublist _ _) hp, ?_, ?_⟩
          · refine Storage.mem_removeList_of_ne ?_ hmin
            intro he'
            exact hne1 (hid ▸ he' ▸ rfl)
          · refine Storage.mem_removeList_of_ne ?_ hmax
            intro he'
            exact hne2 (hid ▸ he' ▸ rfl)
        · rw [happ] at hstep; cases hstep
      · rw [apply_unknown_kind _ _ hk1 hk2] at hstep
        cases hstep

/-! Structure of a storage whose user atoms lie strictly between the
sentinels: the sentinels are the extremal atoms, so the map over user
atoms is exactly the map over the non-sentinel atoms. -/

theorem dropLast_eq_filter_of_max :
    ∀ (t : List Atom), t.Pairwise Atom.lt → maxAtom ∈ t →
      (∀ a ∈ t, a ≠ maxAtom → Atom.lt a maxAtom) →
      (∀ a ∈ t, a.id ≠ minSentinel) →
      t.dropLast = t.filter (fun a => a.id ≠ minSentinel ∧ a.id ≠ maxSentinel) := by
  intro t
  induction t with
  | nil => intro _ hmax _ _; cases hmax
  | cons a t' ih =>
    intro hp hmax hlt hnomin
    rcases List.pairwise_cons.mp hp with ⟨h1, h2⟩
    cases t' with
    | nil =>
      have ha : a = maxAtom := by
        rcases List.mem_cons.mp hmax with h | h
        · exact h.symm
        · cases h
      subst ha
      decide
    | cons b t'' =>
      have hne : a ≠ maxAtom := by
        intro he
        subst he
        have hb1 : Atom.lt maxAtom b := h1 b (List.mem_cons_self _ _)
        have hbne : b ≠ maxAtom := fun he2 => Atom.lt_irrefl maxAtom (he2 ▸ hb1)
        have hb2 : Atom.lt b maxAtom :=
          hlt b (List.mem_cons_of_mem _ (List.mem_cons_self _ _)) hbne
        exact Atom.lt_irrefl maxAtom (Atom.lt_trans hb1 hb2)
      have hmax' : maxAtom ∈ b :: t'' := by
        rcases List.mem_cons.mp hmax with h | h
        · exact absurd h.symm hne
        · exact h
      have haid : a.id ≠ maxSentinel := by
        intro he
        exact hne (Storage.mem_unique_id hp (List.mem_cons_self _ _)
          (List.mem_cons_of_mem _ hmax') he)
      have hstep : (a :: b :: t'').dropLast = a :: (b :: t'').dropLast := rfl
      rw [hstep, List.filter_cons]
      have hpred : (decide (a.id ≠ minSentinel ∧ a.id ≠ maxSentinel)) = true := by
        simp [hnomin a (List.mem_cons_self _ _), haid]
      rw [if_pos hpred]
      rw [ih h2 hmax' (fun x hx => hlt x (List.mem_cons_of_mem _ hx))
        (fun x hx => hnomin x (List.mem_cons_of_mem _ hx))]

theorem head_eq_min (l : List Atom) (hp : l.Pairwise Atom.lt) (hmin : minAtom ∈ l)
    (hlow : ∀ a ∈ l, a ≠ minAtom → Atom.lt minAtom a) :
    ∃ t, l = minAtom :: t ∧ minAtom ∉ t := by
  cases l with
  | nil => cases hmin
  | cons b t =>
    rcases List.pairwise_cons.mp hp with ⟨h1, _⟩
    by_cases hb : b = minAtom
    · subst hb
      refine ⟨t, rfl, ?_⟩
      intro hmem
      exact Atom.lt_irrefl minAtom (h1 minAtom hmem)
    · exfalso
      have hmint : minAtom ∈ t := by
        rcases List.mem_cons.mp hmin with h | h
        · exact absurd h.symm hb
        · exact h
      have hlt1 : Atom.lt b minAtom := h1 minAtom hmint
      have hlt2 : Atom.lt minAtom b := hlow b (List.mem_cons_self _ _) hb
      exact Atom.lt_irrefl b (Atom.lt_trans hlt1 hlt2)

theorem storage_user_atoms_eq_filter (l : List Atom) (hp : l.Pairwise Atom.lt)
    (hmin : minAtom ∈ l) (hmax : maxAtom ∈ l)
    (hbet : ∀ a ∈ l, a.id ≠ minSentinel → a.id ≠ maxSentinel →
      Ident.cmp minSentinel a.id = .lt ∧ Ident.cmp a.id maxSentinel = .lt) :
    (l.drop 1).dropLast = l.filter (fun a => a.id ≠ minSentinel ∧ a.id ≠ maxSentinel) := by
  have hminmax : minAtom ≠ maxAtom := by decide
  have hlow : ∀ a ∈ l, a ≠ minAtom → Atom.lt minAtom a := by
    intro a ha hne
    by_cases h1 : a.id = minSentinel
    · exact absurd (Storage.mem_unique_id hp ha hmin h1) hne
    · by_cases h2 : a.id = maxSentinel
      · have : a = maxAtom := Storage.mem_unique_id hp ha hmax h2
        subst this
        decide
      · exact (hbet a ha h1 h2).1
  obtain ⟨t, hlt, hnotin⟩ := head_eq_min l hp hmin hlow
  subst hlt
  rcases List.pairwise_cons.mp hp with ⟨hh1, hh2⟩
  have hmax' : maxAtom ∈ t := by
    rcases List.mem_cons.mp hmax with h | h
    · exact absurd h.symm hminmax
    · exact h
  have hnomin : ∀ a ∈ t, a.id ≠ minSentinel := by
    intro a ha he
    have : a = minAtom := Storage.mem_unique_id hp (List.mem_cons_of_mem _ ha) hmin he
    exact hnotin (this ▸ ha)
  have hltmax : ∀ a ∈ t, a ≠ maxAtom → Atom.lt a maxAtom := by
    intro a ha hne
    by_cases h2 : a.id = maxSentinel
    · exact absurd (Storage.mem_unique_id hp (List.mem_cons_of_mem _ ha) hmax h2) hne
    · exact (hbet a (List.mem_cons_of_mem _ ha) (hnomin a ha) h2).2
  have hfilter : (minAtom :: t).filter (fun a => a.id ≠ minSentinel ∧ a.id ≠ maxSentinel) =
      t.filter (fun a => a.id ≠ minSentinel ∧ a.id ≠ maxSentinel) := by
    rw [List.filter_cons]
    have : (decide (minAtom.id ≠ minSentinel ∧ minAtom.id ≠ maxSentinel)) = false := by decide
    rw [this]
    simp
  rw [hfilter, List.drop_one, List.tail_cons]
  exact dropLast_eq_filter_of_max t hh2 hmax' hltmax hnomin

/-! Claim theorems. -/

/-- C1: the claim says insert(v, pos) returns an InsertOp whose replica
field is the sequence's replica id, whose time field is the local logical
time, whose id field is the new identifier and whose value field is v, and
applies it to storage.  The code calls the four-parameter InsertOp
constructor with only (id, value) (Sequence.ts 69), so the op it builds —
shown here for the first insertion on a fresh Sequence at replica "A",
where the allocated identifier is `newId0` — carries the identifier in its
replica field, the value in its time field, and undefined id and value
fields; applying that op then faults in storage, so insert throws instead
of returning. -/
theorem insert_op_fields_bug :
    (InsertOp (JsVal.ident newId0) (JsVal.str "x") JsVal.undefined JsVal.undefined).replica
        = JsVal.ident newId0 ∧
    (InsertOp (JsVal.ident newId0) (JsVal.str "x") JsVal.undefined JsVal.undefined).time
        = JsVal.str "x" ∧
    (InsertOp (JsVal.ident newId0) (JsVal.str "x") JsVal.undefined JsVal.undefined).id = JsVal.undefined ∧
    (InsertOp (JsVal.ident newId0) (JsVal.str "x") JsVal.undefined JsVal.undefined).value = JsVal.undefined ∧
    (Sequence.new "A").insert "x" 0 = .error "TypeError: storage ids are Identifiers" :=
  ⟨rfl, rfl, rfl, rfl, rfl⟩

/-- C2: the claimed scenario (insert "x" at 0, insert "y" at 1, toArray
["x","y"], convergence at replica B, then remove) already fails at its
first step: on a fresh Sequence at replica A, toArray() is [] and
insert("x", 0) throws (the malformed two-argument InsertOp has an
undefined id, which faults storage.add), so toArray can never become
["x","y"]. -/
theorem scenario_first_insert_fails :
    (Sequence.new "A").toArray = [] ∧
    (Sequence.new "A").insert "x" 0 = .error "TypeError: storage ids are Identifiers" :=
  ⟨rfl, rfl⟩

/-- C3: the claim says remove(pos) resolves the user-visible atom at pos
and returns a RemoveOp carrying its identifier.  The code reads
storage.get(pos) — which counts sentinels, so position 0 is the MIN
sentinel, not the first user value — and then calls the three-parameter
RemoveOp constructor with the single argument atom.id, so the op's id
field is undefined and applying it faults.  Shown on a sequence holding
one user value "x": remove(0) targets the MIN sentinel and throws instead
of removing "x". -/
theorem remove_pos_zero_bug :
    seqOneB.toArray = [JsVal.str "x"] ∧
    seqOneB.storage.get 0 = some minAtom ∧
    (RemoveOp (JsVal.ident minSentinel) JsVal.undefined JsVal.undefined).id = JsVal.undefined ∧
    seqOneB.remove 0 = .error "TypeError: storage ids are Identifiers" :=
  ⟨rfl, rfl, rfl, rfl⟩

/-- C4 (counterexample): apply is a public operation and accepts an
arbitrary op, so a RemoveOp whose id is the MIN sentinel identifier
removes the MIN sentinel atom from storage — the claim that no operation
removes the sentinels is false as stated. -/
theorem apply_can_remove_sentinel :
    Sequence.apply (Sequence.new "A") hostileRemove =
      .ok { replica := "A", maxDepth := JsVal.undefined, counter := 0, storage := ⟨[maxAtom]⟩ } ∧
    minAtom ∉ ([maxAtom] : List Atom) :=
  ⟨rfl, by decide⟩

/-- C4 (amended): for every sequence of public operations in which every
op passed to apply is protocol-safe (a RemoveOp never carries a sentinel
identifier), the storage always contains the two sentinel atoms, every
atom carrying a sentinel identifier still holds the null value (so no
user value ever occupies a sentinel), and size() equals the atom count
excluding the two sentinels. -/
theorem sentinel_invariant_of_safe_ops {replica : String} {s : Sequence}
    (h : Reach replica s) :
    minAtom ∈ s.storage.atoms ∧ maxAtom ∈ s.storage.atoms ∧
    (∀ a ∈ s.storage.atoms, a.id = minSentinel ∨ a.id = maxSentinel → a.value = JsVal.null) ∧
    s.size = ((s.storage.atoms.filter fun a => a.id ≠ minSentinel ∧ a.id ≠ maxSentinel).length : Int) := by
  obtain ⟨hp, hmin, hmax⟩ := h.stInv
  refine ⟨hmin, hmax, ?_, ?_⟩
  · intro a ha hid
    rcases hid with hid | hid
    · rw [Storage.mem_unique_id hp ha hmin hid]
      rfl
    · rw [Storage.mem_unique_id hp ha hmax hid]
      rfl
  · have h1 : s.storage.atoms.countP (fun x => x.id == minSentinel) = 1 := by
      have := Storage.countP_eq_one hp hmin
      simpa [minAtom] using this
    have h2 : s.storage.atoms.countP (fun x => x.id == maxSentinel) = 1 := by
      have := Storage.countP_eq_one hp hmax
      simpa [maxAtom] using this
    have hpq : ∀ x : Atom, (x.id == minSentinel) = true → (x.id == maxSentinel) = false := by
      intro x hx
      have hxe : x.id = minSentinel := by simpa using hx
      rw [hxe]
      decide
    have hsplit := Storage.length_split3 _ _ hpq s.storage.atoms
    rw [h1, h2] at hsplit
    have hfe : (s.storage.atoms.filter fun x => !(x.id == minSentinel) && !(x.id == maxSentinel)) =
        (s.storage.atoms.filter fun a => a.id ≠ minSentinel ∧ a.id ≠ maxSentinel) := by
      apply List.filter_congr
      intro x _
      by_cases hm : x.id = minSentinel <;> by_cases hM : x.id = maxSentinel <;> simp [hm, hM]
    rw [hfe] at hsplit
    unfold Sequence.size Storage.size
    omega

/-- Witness for C4's amended theorem at the freshly constructed Sequence. -/
theorem sentinel_invariant_of_safe_ops_witness :
    minAtom ∈ (Sequence.new "A").storage.atoms ∧
    maxAtom ∈ (Sequence.new "A").storage.atoms ∧
    (∀ a ∈ (Sequence.new "A").storage.atoms,
      a.id = minSentinel ∨ a.id = maxSentinel → a.value = JsVal.null) ∧
    (Sequence.new "A").size = (((Sequence.new "A").storage.atoms.filter
      fun a => a.id ≠ minSentinel ∧ a.id ≠ maxSentinel).length : Int) :=
  sentinel_invariant_of_safe_ops Reach.init

/-- C5: the claim says Op.parse(op.toString()) reconstructs an op equal by
fields to the original.  InsertOp.parse and RemoveOp.parse pass the whole
encoded op string to Ident.parse instead of the destructured id field
(Op.ts 109, 150), so decoding the identifier fails and the round trip
errors for both op kinds; the identifier's own encoding does round-trip,
confirming the fault lies in the op parse functions. -/
theorem op_string_roundtrip_bug :
    Op.encode (InsertOp (JsVal.str "A") (JsVal.num 1) (JsVal.ident idX) (JsVal.str "x"))
      = .ok "+A:1:5,A,0:x" ∧
    Op.parse "+A:1:5,A,0:x" = .error "DecodeError: malformed segment" ∧
    Op.encode (RemoveOp (JsVal.str "A") (JsVal.num 2) (JsVal.ident idX)) = .ok "-A:2:5,A,0" ∧
    Op.parse "-A:2:5,A,0" = .error "DecodeError: malformed segment" ∧
    Ident.parse (Ident.str idX) = .ok idX :=
  ⟨rfl, rfl, rfl, rfl, rfl⟩

/-- C6: toJSON() returns the pair of the replica id and the list of
(identifier-string, value) pairs for exactly the non-sentinel atoms, in
ascending identifier order, provided the storage is sorted, contains both
sentinels and its user identifiers lie strictly between them. -/
theorem toJSON_projection {s : Sequence}
    (hp : s.storage.atoms.Pairwise Atom.lt)
    (hmin : minAtom ∈ s.storage.atoms) (hmax : maxAtom ∈ s.storage.atoms)
    (hbet : ∀ a ∈ s.storage.atoms, a.id ≠ minSentinel → a.id ≠ maxSentinel →
      Ident.cmp minSentinel a.id = .lt ∧ Ident.cmp a.id maxSentinel = .lt) :
    (s.toJSON).1 = s.replica ∧
    (s.toJSON).2 = (s.storage.atoms.filter
      fun a => a.id ≠ minSentinel ∧ a.id ≠ maxSentinel).map (fun a => (a.id.str, a.value)) ∧
    (s.storage.atoms.filter fun a => a.id ≠ minSentinel ∧ a.id ≠ maxSentinel).Pairwise Atom.lt := by
  refine ⟨rfl, ?_, List.Pairwise.sublist (List.filter_sublist _) hp⟩
  show Storage.map s.storage (fun a => (a.id.str, a.value)) = _
  unfold Storage.map
  rw [storage_user_atoms_eq_filter s.storage.atoms hp hmin hmax hbet]

/-- Witness for C6 on a sequence holding one user value. -/
theorem toJSON_projection_witness :
    (seqOneB.toJSON).1 = seqOneB.replica ∧
    (seqOneB.toJSON).2 = (seqOneB.storage.atoms.filter
      fun a => a.id ≠ minSentinel ∧ a.id ≠ maxSentinel).map (fun a => (a.id.str, a.value)) ∧
    (seqOneB.storage.atoms.filter fun a => a.id ≠ minSentinel ∧ a.id ≠ maxSentinel).Pairwise Atom.lt :=
  toJSON_projection (by decide) (by decide) (by decide) (by decide)

/-- C7 (counterexample): on an input whose leading character is neither
'+' nor '-', Op.parse does not fail with a decode error — the switch has
no default case, so it silently returns undefined (modelled `.ok none`). -/
theorem parse_unknown_sigil_undefined : Op.parse "x1:2" = .ok none := rfl

/-- C7 (amended): for every input string whose leading character is
neither '+' nor '-', Op.parse silently returns undefined (no op and no
error), never a decode error. -/
theorem parse_unknown_sigil_silent (s : String) (c : Char) (cs : List Char)
    (h : s.data = c :: cs) (h1 : c ≠ '+') (h2 : c ≠ '-') : Op.parse s = .ok none := by
  simp only [Op.parse]
  rw [h]
  simp [h1, h2]

/-- Witness for C7's amended theorem. -/
theorem parse_unknown_sigil_silent_witness : Op.parse "q7" = .ok none :=
  parse_unknown_sigil_silent "q7" 'q' ['7'] (by decide) (by decide) (by decide)

/-- C8: apply(op) dispatches on op.kind — an Insert kind adds
(op.id, op.value) to storage, a Remove kind removes op.id from storage,
and any other kind throws `Unknown op kind` rather than being ignored. -/
theorem apply_dispatch (s : Sequence) (op : Op) :
    (∀ i : Ident, op.kind = OpKind.Insert → op.id = JsVal.ident i →
      Sequence.apply s op = .ok { s with storage := ⟨Storage.addList i op.value s.storage.atoms⟩ }) ∧
    (∀ i : Ident, op.kind = OpKind.Remove → op.id = JsVal.ident i →
      Sequence.apply s op = .ok { s with storage := ⟨Storage.removeList i s.storage.atoms⟩ }) ∧
    (op.kind ≠ OpKind.Insert → op.kind ≠ OpKind.Remove →
      Sequence.apply s op = .error ("Unknown op kind " ++ toString op.kind)) := by
  refine ⟨?_, ?_, ?_⟩
  · intro i hk hid
    unfold Sequence.apply Storage.add
    rw [if_pos hk, hid]
    rfl
  · intro i hk hid
    have hk1 : op.kind ≠ OpKind.Insert := by
      rw [hk]
      decide
    unfold Sequence.apply Storage.remove
    rw [if_neg hk1, if_pos hk, hid]
    rfl
  · intro h1 h2
    exact apply_unknown_kind s op h1 h2

/-- Witness for C8 at a concrete remote InsertOp. -/
theorem apply_dispatch_witness :
    Sequence.apply (Sequence.new "B") goodInsertX =
      .ok { Sequence.new "B" with storage :=
        ⟨Storage.addList idX goodInsertX.value (Sequence.new "B").storage.atoms⟩ } :=
  (apply_dispatch (Sequence.new "B") goodInsertX).1 idX rfl rfl

/-- C9: the claim says every local insert updates maxDepth to
max(maxDepth, newId.depth()) and depth() then returns that maximum.  The
constructor never initializes maxDepth (it stays undefined), the guard
`maxDepth < id.getDepth()` is false for undefined, and insert in fact
throws before reaching the update (the malformed two-argument InsertOp
faults in apply), so depth() remains undefined after any attempted local
insert. -/
theorem maxDepth_never_updated :
    (Sequence.new "A").maxDepth = JsVal.undefined ∧
    (Sequence.new "A").depth = JsVal.undefined ∧
    JsVal.ltNum JsVal.undefined (Ident.getDepth newId0) = false ∧
    (Sequence.new "A").insert "x" 0 = .error "TypeError: storage ids are Identifiers" :=
  ⟨rfl, rfl, rfl, rfl⟩

/-- C10: apply mutates only the storage component — the replica, maxDepth
and generator-counter fields are unchanged by every successful apply, so
applying a remote InsertOp never raises depth(), however deep its
identifier. -/
theorem apply_frame (s : Sequence) (op : Op) (s' : Sequence)
    (h : Sequence.apply s op = .ok s') :
    s'.replica = s.replica ∧ s'.maxDepth = s.maxDepth ∧ s'.counter = s.counter ∧
    s'.depth = s.depth ∧ s' = { s with storage := s'.storage } := by
  by_cases hk1 : op.kind = OpKind.Insert
  · rcases apply_insert_ident_shape s op hk1 with ⟨i, hid, happ⟩ | happ
    · rw [happ] at h
      injection h with h
      rw [← h]
      exact ⟨rfl, rfl, rfl, rfl, rfl⟩
    · rw [happ] at h
      cases h
  · by_cases hk2 : op.kind = OpKind.Remove
    · rcases apply_remove_ident_shape s op hk1 hk2 with ⟨i, hid, happ⟩ | happ
      · rw [happ] at h
        injection h with h
        rw [← h]
        exact ⟨rfl, rfl, rfl, rfl, rfl⟩
      · rw [happ] at h
        cases h
    · rw [apply_unknown_kind s op hk1 hk2] at h
      cases h

/-- Witness for C10: applying a remote InsertOp whose identifier has depth
3 to a fresh sequence (whose maxDepth is undefined) leaves replica,
maxDepth and depth() unchanged. -/
theorem apply_frame_witness :
    seqDeepA.replica = (Sequence.new "A").replica ∧
    seqDeepA.maxDepth = (Sequence.new "A").maxDepth ∧
    seqDeepA.counter = (Sequence.new "A").counter ∧
    seqDeepA.depth = (Sequence.new "A").depth ∧
    seqDeepA = { Sequence.new "A" with storage := seqDeepA.storage } :=
  apply_frame (Sequence.new "A") deepInsert seqDeepA rfl

end LSeq
